import Mathlib

/-!
Shallow embedding of the glot-snippets migration tool (`src/main.rs`).

The tool migrates code-snippet documents from a CouchDB store into a
PostgreSQL schema, page by page.  Pure Rust functions are embedded as Lean
functions; the stateful per-page write is embedded as explicit state passing
over a `DB` value together with a trace of operations (`Op`).  The CouchDB
server itself and the chrono timestamp parser are external to the repository
and are modelled from the specification where noted.
-/

namespace GlotMigration

/-- The NUL character, which the tool strips from titles and file names. -/
def nul : Char := Char.ofNat 0

/-- ASCII lower-casing of one character, as in Rust `char::to_ascii_lowercase`:
uppercase ASCII letters are shifted by 32, all other characters unchanged. -/
def toLowerChar (c : Char) : Char :=
  if 'A' ≤ c ∧ c ≤ 'Z' then Char.ofNat (c.toNat + 32) else c

/-- ASCII lower-casing of a string, as in Rust `str::to_ascii_lowercase`. -/
def toAsciiLowercase (s : String) : String :=
  ⟨s.data.map toLowerChar⟩

/-- Embeds `str::replace("\0", "")` on the character list: every occurrence of
the NUL character is deleted, all other characters are kept in order. -/
def replaceNulList : List Char → List Char
  | [] => []
  | c :: rest => if c = nul then replaceNulList rest else c :: replaceNulList rest

/-- Embeds `s.replace("\0", "")` as used on titles and file names. -/
def removeNul (s : String) : String :=
  ⟨replaceNulList s.data⟩

/-- The 37 language tags accepted unchanged by `normalize_language`, in the
order of the match arms of the source (note that `plaintext` is one of them). -/
def canonicalTags : List String :=
  ["assembly", "ats", "bash", "clojure", "cobol", "coffeescript", "cpp", "c",
   "crystal", "csharp", "d", "elixir", "elm", "erlang", "fsharp", "go",
   "groovy", "haskell", "idris", "javascript", "julia", "kotlin", "lua",
   "mercury", "nim", "ocaml", "java", "perl", "php", "python", "raku",
   "ruby", "rust", "scala", "swift", "typescript", "plaintext"]

/-- The diagnostic line printed by the fallback arm of `normalize_language`. -/
def invalidLanguageMsg (language : String) : String :=
  "Invalid language '" ++ language ++ "', changing to 'plaintext'"

/-- The match of `normalize_language` on the already lower-cased string.
Returns the normalized tag together with the list of lines printed
(the source prints a diagnostic in the fallback arm only). -/
def normalizeCore (language : String) : String × List String :=
  match language with
  | "assembly" => (language, [])
  | "ats" => (language, [])
  | "bash" => (language, [])
  | "clojure" => (language, [])
  | "cobol" => (language, [])
  | "coffeescript" => (language, [])
  | "cpp" => (language, [])
  | "c" => (language, [])
  | "crystal" => (language, [])
  | "csharp" => (language, [])
  | "d" => (language, [])
  | "elixir" => (language, [])
  | "elm" => (language, [])
  | "erlang" => (language, [])
  | "fsharp" => (language, [])
  | "go" => (language, [])
  | "groovy" => (language, [])
  | "haskell" => (language, [])
  | "idris" => (language, [])
  | "javascript" => (language, [])
  | "julia" => (language, [])
  | "kotlin" => (language, [])
  | "lua" => (language, [])
  | "mercury" => (language, [])
  | "nim" => (language, [])
  | "ocaml" => (language, [])
  | "java" => (language, [])
  | "perl" => (language, [])
  | "php" => (language, [])
  | "python" => (language, [])
  | "raku" => (language, [])
  | "ruby" => (language, [])
  | "rust" => (language, [])
  | "scala" => (language, [])
  | "swift" => (language, [])
  | "typescript" => (language, [])
  | "plaintext" => (language, [])
  | "perl6" => ("raku", [])
  | _ => ("plaintext", [invalidLanguageMsg language])

/-- Embeds `normalize_language`: lower-case the input, then match.  Total by
construction, as the source function is (every input reaches some arm). -/
def normalize_language (input : String) : String × List String :=
  normalizeCore (toAsciiLowercase input)

/-- Embeds the `Profile` struct: a row of the owner lookup table. -/
structure Profile where
  user_id : Int
  api_id : String
  username : String
deriving Repr, DecidableEq

/-- Embeds the `File` entry of a CouchDB document: name and raw byte content. -/
structure CouchFile where
  name : String
  content : List Nat
deriving Repr, DecidableEq

/-- Embeds `CouchDocument`: one source document of the store. -/
structure CouchDocument where
  _id : String
  created : String
  modified : String
  language : String
  title : String
  public : Bool
  owner : String
  files : List CouchFile
deriving Repr, DecidableEq

/-- Embeds `CouchRow`: one row of a fetched page. -/
structure CouchRow where
  doc : CouchDocument
deriving Repr, DecidableEq

/-- Embeds `CouchResponse`: the decoded body of one page fetch. -/
structure CouchResponse where
  total_rows : Nat
  offset : Nat
  rows : List CouchRow
deriving Repr, DecidableEq

/-- A parsed fixed-offset date-time, the result of RFC 3339 parsing.  The
offset is in minutes east of UTC; `frac` holds the parsed fractional-second
digits as a number. -/
structure FixedOffsetDateTime where
  year : Nat
  month : Nat
  day : Nat
  hour : Nat
  minute : Nat
  second : Nat
  frac : Nat
  offsetMinutes : Int
deriving Repr, DecidableEq

/-- Reads the value of one decimal digit, if the character is a digit. -/
def digitVal (c : Char) : Option Nat :=
  if '0' ≤ c ∧ c ≤ '9' then some (c.toNat - 48) else none

/-- Reads exactly `n` decimal digits from the front of the list, returning
their value and the remaining characters. -/
def readDigits : Nat → List Char → Option (Nat × List Char)
  | 0, l => some (0, l)
  | _ + 1, [] => none
  | n + 1, c :: rest =>
    match digitVal c with
    | none => none
    | some d =>
      match readDigits n rest with
      | none => none
      | some (v, l) => some (d * 10 ^ n + v, l)

/-- Consumes an expected literal character from the front of the list. -/
def expectChar (c : Char) : List Char → Option (List Char)
  | [] => none
  | x :: rest => if x = c then some rest else none

/-- Consumes an optional fractional-second part: a dot followed by at least
one digit.  Returns the digit value and the remaining characters. -/
def readFrac : List Char → Nat × List Char
  | '.' :: rest =>
    let digits := rest.takeWhile (fun c => decide ('0' ≤ c ∧ c ≤ '9'))
    if digits.isEmpty then (0, '.' :: rest)
    else (digits.foldl (fun acc c => acc * 10 + (c.toNat - 48)) 0,
      rest.dropWhile (fun c => decide ('0' ≤ c ∧ c ≤ '9')))
  | l => (0, l)

/-- Consumes the offset part of an RFC 3339 timestamp: `Z` for UTC or a
signed `HH:MM` offset with in-range fields. -/
def readOffset : List Char → Option (Int × List Char)
  | 'Z' :: rest => some (0, rest)
  | '+' :: rest =>
    match readDigits 2 rest with
    | none => none
    | some (h, l1) =>
      match expectChar ':' l1 with
      | none => none
      | some l2 =>
        match readDigits 2 l2 with
        | none => none
        | some (m, l3) =>
          if h ≤ 23 ∧ m ≤ 59 then some ((h * 60 + m : Nat), l3) else none
  | '-' :: rest =>
    match readDigits 2 rest with
    | none => none
    | some (h, l1) =>
      match expectChar ':' l1 with
      | none => none
      | some l2 =>
        match readDigits 2 l2 with
        | none => none
        | some (m, l3) =>
          if h ≤ 23 ∧ m ≤ 59 then some (-((h * 60 + m : Nat) : Int), l3) else none
  | _ => none

/-- Modelled from the spec: `chrono::DateTime::parse_from_rfc3339`, the
timestamp parser of the external chrono crate, which is not part of this
repository.  The spec describes the timestamps as ISO-8601 date-times with a
fixed offset; this model accepts `YYYY-MM-DDTHH:MM:SS`, an optional
fractional-second part, and an offset `Z` or `±HH:MM`, with in-range month,
day, hour, minute and second fields (day validity is checked against 31 for
every month, a simplification of the real calendar check), and rejects
everything else. -/
def parseRfc3339 (s : String) : Option FixedOffsetDateTime :=
  match readDigits 4 s.data with
  | none => none
  | some (year, l1) =>
    match expectChar '-' l1 with
    | none => none
    | some l2 =>
      match readDigits 2 l2 with
      | none => none
      | some (month, l3) =>
        match expectChar '-' l3 with
        | none => none
        | some l4 =>
          match readDigits 2 l4 with
          | none => none
          | some (day, l5) =>
            match expectChar 'T' l5 with
            | none => none
            | some l6 =>
              match readDigits 2 l6 with
              | none => none
              | some (hour, l7) =>
                match expectChar ':' l7 with
                | none => none
                | some l8 =>
                  match readDigits 2 l8 with
                  | none => none
                  | some (minute, l9) =>
                    match expectChar ':' l9 with
                    | none => none
                    | some l10 =>
                      match readDigits 2 l10 with
                      | none => none
                      | some (second, l11) =>
                        let (frac, l12) := readFrac l11
                        match readOffset l12 with
                        | none => none
                        | some (off, l13) =>
                          if 1 ≤ month ∧ month ≤ 12 ∧ 1 ≤ day ∧ day ≤ 31
                              ∧ hour ≤ 23 ∧ minute ≤ 59 ∧ second ≤ 60
                              ∧ l13 = [] then
                            some ⟨year, month, day, hour, minute, second, frac, off⟩
                          else none

/-- The query parameters of one `_all_docs` request, as built by
`get_documents`. -/
structure Query where
  descending : Bool
  limit : Nat
  startkey : Option String
  startkey_docid : Option String
  skip : Nat
  include_docs : Bool
deriving Repr, DecidableEq

/-- Embeds the request construction of `get_documents`: with a cursor, the
request carries `startkey` (the cursor wrapped in literal double quotes with
no escaping), `startkey_docid` (the raw cursor) and `skip=1` to skip the
entry matching the cursor; without a cursor it carries only `skip=1` to skip
the design document.  Both branches use `descending=false` and
`include_docs=true`. -/
def buildQuery (optional_start_key : Option String) (limit : Nat) : Query :=
  match optional_start_key with
  | some start_key =>
    { descending := false
      limit := limit
      startkey := some ("\"" ++ start_key ++ "\"")
      startkey_docid := some start_key
      skip := 1
      include_docs := true }
  | none =>
    { descending := false
      limit := limit
      startkey := none
      startkey_docid := none
      skip := 1
      include_docs := true }

/-- Lexicographic comparison of character lists by code point, the key order
of the modelled document store. -/
def charListLt : List Char → List Char → Bool
  | [], [] => false
  | [], _ :: _ => true
  | _ :: _, [] => false
  | a :: as, b :: bs =>
    if a.toNat < b.toNat then true
    else if b.toNat < a.toNat then false
    else charListLt as bs

/-- Lexicographic comparison of natural keys. -/
def strLt (a b : String) : Bool := charListLt a.data b.data

/-- Modelled from the spec: the document store itself (an external CouchDB
instance, not part of this repository).  Its raw `_all_docs` listing always
returns one non-document header entry first (the design document), followed
by the source documents in ascending natural-key order. -/
structure Listing where
  headerKey : String
  docs : List CouchDocument
deriving Repr, DecidableEq

/-- The raw listing entries of the store: the header entry first (carrying no
document), then one entry per document, keyed by its natural key. -/
def couchEntries (l : Listing) : List (String × Option CouchDocument) :=
  (l.headerKey, none) :: l.docs.map (fun d => (d._id, some d))

/-- Modelled from the spec: the response of the document store to one
`_all_docs` request (§4.3, §6).  With `startkey_docid` set to a cursor `k`,
the page starts at the first entry whose key is not below `k`; then `skip`
entries are dropped and `limit` entries are returned, with their documents.
The total count is the number of document entries of the store, matching the
total reported in the end-to-end scenario of the spec (§8). -/
def couchRespond (l : Listing) (q : Query) : CouchResponse :=
  let entries := couchEntries l
  let afterStart :=
    match q.startkey_docid with
    | some k => entries.dropWhile (fun (e : String × Option CouchDocument) => strLt e.1 k)
    | none => entries
  let page := (afterStart.drop q.skip).take q.limit
  { total_rows := l.docs.length
    offset := q.skip + (entries.length - afterStart.length)
    rows := page.filterMap (fun (e : String × Option CouchDocument) => e.2.map CouchRow.mk) }

/-- Embeds `get_documents`: build the request for the optional cursor and the
page size (the query construction is from the source; the response is the
spec-modelled store behavior). -/
def get_documents (store : Listing) (optional_start_key : Option String)
    (limit : Nat) : CouchResponse :=
  couchRespond store (buildQuery optional_start_key limit)

/-- Embeds `CodeSnippet` together with the surrogate id the snippet insert
returns: one row of the `code_snippet` sink table. -/
structure SnippetRow where
  id : Int
  slug : String
  language : String
  title : String
  public : Bool
  user_id : Option Int
  created : FixedOffsetDateTime
  modified : FixedOffsetDateTime
deriving Repr, DecidableEq

/-- One row of the `code_file` sink table. -/
structure FileRow where
  id : Int
  code_snippet_id : Int
  name : String
  content : List Nat
deriving Repr, DecidableEq

/-- The visible state of the relational sink: the committed rows of the two
tables and the next value of each surrogate-id sequence. -/
structure DB where
  snippets : List SnippetRow
  files : List FileRow
  next_snippet_id : Int
  next_file_id : Int
deriving Repr, DecidableEq

/-- The text of the snippet insert statement prepared by `process_rows`. -/
def insertSnippetSql : String :=
  "INSERT INTO code_snippet (slug, language, title, public, user_id, created, modified) VALUES ($1, $2, $3, $4, $5, $6, $7) RETURNING id"

/-- The text of the file insert statement prepared by `process_rows`. -/
def insertFileSql : String :=
  "INSERT INTO code_file (code_snippet_id, name, content) VALUES ($1, $2, $3) RETURNING id"

/-- One observable operation of a run: page fetches, progress printing,
statement preparation, transaction control, row inserts and the diagnostic
lines of the normalizer. -/
inductive Op where
  | fetch (q : Query)
  | printLine (s : String)
  | prepare (sql : String)
  | beginTx
  | commit
  | rollback
  | insertSnippet (r : SnippetRow)
  | insertFile (r : FileRow)
  | log (s : String)
deriving Repr, DecidableEq

/-- Embeds the inner file loop of `process_rows`: one `code_file` insert per
attached file, in original order, each using the captured surrogate snippet
id and the sanitized file name. -/
def insertFilesOps (sid : Int) (files : List CouchFile) (tx : DB) :
    List Op × DB :=
  match files with
  | [] => ([], tx)
  | f :: rest =>
    let row : FileRow := ⟨tx.next_file_id, sid, removeNul f.name, f.content⟩
    let tx1 : DB := { tx with
      files := tx.files ++ [row]
      next_file_id := tx.next_file_id + 1 }
    let step := insertFilesOps sid rest tx1
    (Op.insertFile row :: step.1, step.2)

/-- Embeds the body of the `for row in &rows` loop of `process_rows` for one
document: resolve the owner, normalize the language (printing its
diagnostics), sanitize the title, parse both timestamps — a parse failure
panics, which aborts the page — then insert the snippet row, capture its
surrogate id, and insert one file row per attached file.  Returns the
operations performed and the transaction state, or `none` if the row
panicked. -/
def processRowStep (profiles : List (String × Profile)) (tx : DB)
    (row : CouchRow) : List Op × Option DB :=
  let d := row.doc
  let profile := List.lookup d.owner profiles
  let norm := normalize_language d.language
  match parseRfc3339 d.created, parseRfc3339 d.modified with
  | some created, some modified =>
    let snip : SnippetRow :=
      ⟨tx.next_snippet_id, d._id, norm.1, removeNul d.title, d.public,
        profile.map Profile.user_id, created, modified⟩
    let tx1 : DB := { tx with
      snippets := tx.snippets ++ [snip]
      next_snippet_id := tx.next_snippet_id + 1 }
    let fstep := insertFilesOps snip.id d.files tx1
    (norm.2.map Op.log ++ [Op.insertSnippet snip] ++ fstep.1, some fstep.2)
  | _, _ => (norm.2.map Op.log, none)

/-- Embeds the whole document loop of `process_rows` over the page, threading
the transaction state; stops at the first panicking document. -/
def processRowsAux (profiles : List (String × Profile)) (tx : DB) :
    List CouchRow → List Op × Option DB
  | [] => ([], some tx)
  | r :: rest =>
    match processRowStep profiles tx r with
    | (ops, some tx1) =>
      let step := processRowsAux profiles tx1 rest
      (ops ++ step.1, step.2)
    | (ops, none) => (ops, none)

/-- Embeds `process_rows`: prepare the two insert statements, open a
transaction, process every row, and commit; the cursor returned is the
natural key of the last row of the page.  The result is the trace of
operations, the visible sink state afterwards, and `some cursor` on success
or `none` when the page panicked — in which case the transaction is dropped
(rolled back) and the sink is unchanged. -/
def process_rows (rows : List CouchRow) (profiles : List (String × Profile))
    (db : DB) : List Op × DB × Option (Option String) :=
  let prep := [Op.prepare insertSnippetSql, Op.prepare insertFileSql, Op.beginTx]
  match processRowsAux profiles db rows with
  | (ops, some txFinal) =>
    (prep ++ ops ++ [Op.commit], txFinal,
      some ((rows.getLast?).map (fun r => r.doc._id)))
  | (ops, none) => (prep ++ ops ++ [Op.rollback], db, none)

/-- Embeds `process_loop`, with explicit fuel in place of the unbounded
recursion of the source: fetch a page of up to 1000 documents, print the
progress line, and if the page is non-empty process it and loop with the
returned cursor; an empty page ends the run.  Returns the trace, the final
sink state, and whether the run terminated normally (`false` when the fuel
ran out or a page panicked). -/
def process_loop (fuel : Nat) (store : Listing) (start_key : Option String)
    (rows_processed : Nat) (profiles : List (String × Profile)) (db : DB) :
    List Op × DB × Bool :=
  match fuel with
  | 0 => ([], db, false)
  | fuel + 1 =>
    let q := buildQuery start_key 1000
    let documents := couchRespond store q
    let documents_count := documents.rows.length
    let progress := Op.printLine ("Processed " ++ toString rows_processed
      ++ " of " ++ toString documents.total_rows)
    if documents_count > 0 then
      match process_rows documents.rows profiles db with
      | (ops, db1, some cursor) =>
        let step := process_loop fuel store cursor
          (rows_processed + documents_count) profiles db1
        (Op.fetch q :: progress :: ops ++ step.1, step.2.1, step.2.2)
      | (ops, db1, none) => (Op.fetch q :: progress :: ops, db1, false)
    else
      ([Op.fetch q, progress], db, true)

/-- The statement-preparation operations of a trace. -/
def prepareOps (ops : List Op) : List Op :=
  ops.filter (fun op => match op with | Op.prepare _ => true | _ => false)

/-- The diagnostic lines of a trace. -/
def logMsgs (ops : List Op) : List String :=
  ops.filterMap (fun op => match op with | Op.log m => some m | _ => none)

/-- The progress lines of a trace. -/
def printedLines (ops : List Op) : List String :=
  ops.filterMap (fun op => match op with | Op.printLine m => some m | _ => none)

/-- The page-fetch operations of a trace. -/
def fetchOps (ops : List Op) : List Op :=
  ops.filter (fun op => match op with | Op.fetch _ => true | _ => false)

/-- The commit operations of a trace. -/
def commitOps (ops : List Op) : List Op :=
  ops.filter (fun op => match op with | Op.commit => true | _ => false)

/-- The value of a hexadecimal digit, if the character is one. -/
def hexVal (c : Char) : Option Nat :=
  if '0' ≤ c ∧ c ≤ '9' then some (c.toNat - 48)
  else if 'a' ≤ c ∧ c ≤ 'f' then some (c.toNat - 87)
  else if 'A' ≤ c ∧ c ≤ 'F' then some (c.toNat - 55)
  else none

/-- The characters allowed after a backslash in a JSON string, with the
character each one denotes (the `u` form is handled separately). -/
def unescape (c : Char) : Option Char :=
  match c with
  | '"' => some '"'
  | '\\' => some '\\'
  | '/' => some '/'
  | 'b' => some (Char.ofNat 8)
  | 'f' => some (Char.ofNat 12)
  | 'n' => some '\n'
  | 'r' => some '\r'
  | 't' => some '\t'
  | _ => none

/-- Scanner for the body of a JSON string token, after the opening quote:
an unescaped quote must close the string at the very end of the input, a
backslash starts an escape (`\uXXXX` or a single escapable character), and
unescaped control characters are rejected.  Returns the decoded characters. -/
def jsonStrAux : List Char → List Char → Option (List Char)
  | _, [] => none
  | acc, '"' :: rest => if rest.isEmpty then some acc.reverse else none
  | acc, '\\' :: 'u' :: a :: b :: c :: d :: rest =>
    match hexVal a, hexVal b, hexVal c, hexVal d with
    | some ha, some hb, some hc, some hd =>
      jsonStrAux (Char.ofNat (((ha * 16 + hb) * 16 + hc) * 16 + hd) :: acc) rest
    | _, _, _, _ => none
  | acc, '\\' :: c :: rest =>
    match unescape c with
    | some e => jsonStrAux (e :: acc) rest
    | none => none
  | _, ['\\'] => none
  | acc, c :: rest =>
    if c.toNat < 32 then none else jsonStrAux (c :: acc) rest

/-- Decodes a complete JSON string token: an opening quote, a scanned body
and nothing after the closing quote.  `jsonDecodeString enc = some s` states
that `enc` is a valid JSON-string encoding of `s`. -/
def jsonDecodeString (enc : String) : Option String :=
  match enc.data with
  | '"' :: rest => (jsonStrAux [] rest).map (fun l => (⟨l⟩ : String))
  | _ => none

/-- A concrete strictly ascending store with header key `A` and documents
keyed `a`, `b`, `c`, used to instantiate the fetch and pipeline theorems. -/
def wDoc (k : String) : CouchDocument :=
  ⟨k, "2019-05-06T12:00:00Z", "2019-05-07T08:30:00+02:00", "Rust",
    "he\x00llo", true, "owner-1", [⟨"ma\x00in.rs", [102, 110]⟩]⟩

/-- The three-document store of the witnesses and the end-to-end scenario. -/
def wStore : Listing := ⟨"A", [wDoc "a", wDoc "b", wDoc "c"]⟩

/-- The empty initial sink, with both id sequences at 1. -/
def initialDB : DB := ⟨[], [], 1, 1⟩

/-- Classifies the operations a document of a page can produce: normalizer
diagnostics and row inserts, but never transaction control or preparation. -/
def isRowOp : Op → Bool
  | Op.log _ => true
  | Op.insertSnippet _ => true
  | Op.insertFile _ => true
  | _ => false

/-- A document whose creation timestamp does not parse, used to witness the
page-abort behavior. -/
def badRow : CouchRow :=
  ⟨⟨"z", "not-a-date", "2019-05-06T12:00:00Z", "rust", "t", true, "o", []⟩⟩

/-- The transaction state after the sanitization witness processes document
`a` (title and file name hold an embedded NUL byte each). -/
def wTx : DB :=
  ⟨[⟨1, "a", "rust", "hello", true, some 42,
      ⟨2019, 5, 6, 12, 0, 0, 0, 0⟩, ⟨2019, 5, 7, 8, 30, 0, 0, 120⟩⟩],
   [⟨1, 1, "main.rs", [102, 110]⟩], 2, 2⟩

/-- The owner lookup table of the witnesses: one profile. -/
def wProfiles : List (String × Profile) :=
  [("owner-1", ⟨42, "owner-1", "alice"⟩)]

/-- A document whose owner reference key is absent from the lookup table. -/
def ghostRow : CouchRow :=
  ⟨⟨"g", "2019-05-06T12:00:00Z", "2019-05-06T12:00:00Z", "rust", "t",
    true, "ghost", []⟩⟩

/-- The transaction state after processing the unresolvable-owner document:
its snippet row carries a null owner identity. -/
def ghostTx : DB :=
  ⟨[⟨1, "g", "rust", "t", true, none,
      ⟨2019, 5, 6, 12, 0, 0, 0, 0⟩, ⟨2019, 5, 6, 12, 0, 0, 0, 0⟩⟩], [], 2, 1⟩

/-- A decimal digit character. -/
def digitChar (n : Nat) : Char := Char.ofNat (48 + n % 10)

/-- A four-digit zero-padded key, so that numeric order is key order. -/
def key4 (i : Nat) : String :=
  ⟨[digitChar (i / 1000), digitChar (i / 100), digitChar (i / 10), digitChar i]⟩

/-- A minimal well-formed document with the given natural key. -/
def bigDoc (k : String) : CouchDocument :=
  ⟨k, "2019-05-06T12:00:00Z", "2019-05-06T12:00:00Z", "c", "t", true, "x", []⟩

/-- A store with 1001 documents: one more than the page size, so a run takes
two non-empty pages before the empty third fetch. -/
def bigStore : Listing :=
  ⟨"!", (List.range 1001).map (fun i => bigDoc (key4 i))⟩

/-- Each match arm that accepts a canonical tag returns the tag unchanged. -/
theorem normalizeCore_of_mem (l : String) (h : l ∈ canonicalTags) :
    normalizeCore l = (l, []) := by
  simp only [canonicalTags, List.mem_cons, List.not_mem_nil, or_false] at h
  rcases h with h | h | h | h | h | h | h | h | h | h | h | h | h | h | h | h |
    h | h | h | h | h | h | h | h | h | h | h | h | h | h | h | h | h | h | h |
    h | h <;> subst h <;> rfl

/-- Any lower-cased string that is neither a canonical tag nor the alias
`perl6` falls through to the `plaintext` fallback arm. -/
theorem normalizeCore_fallback (l : String) (h1 : l ∉ canonicalTags)
    (h2 : l ≠ "perl6") : normalizeCore l = ("plaintext", [invalidLanguageMsg l]) := by
  simp only [canonicalTags, List.mem_cons, List.not_mem_nil, or_false, not_or] at h1
  unfold normalizeCore
  split
  all_goals first
  | rfl
  | tauto

/-- Every canonical tag is already ASCII lower case. -/
theorem canonicalTags_lowercase : ∀ t ∈ canonicalTags, toAsciiLowercase t = t := by
  decide

/-- C1: `normalize_language` is total (it is a Lean function), and: an input
that is case-insensitively equal to a canonical tag (its ASCII lower-casing
is that tag) normalizes to that tag; an input case-insensitively equal to
`perl6` normalizes to `raku`; any other input normalizes to `plaintext`. -/
theorem normalize_language_cases (s : String) :
    (∀ t ∈ canonicalTags, toAsciiLowercase s = t → (normalize_language s).1 = t)
    ∧ (toAsciiLowercase s = "perl6" → (normalize_language s).1 = "raku")
    ∧ (toAsciiLowercase s ∉ canonicalTags → toAsciiLowercase s ≠ "perl6" →
        (normalize_language s).1 = "plaintext") := by
  refine ⟨fun t ht hs => ?_, fun hs => ?_, fun h1 h2 => ?_⟩
  · rw [normalize_language, hs, normalizeCore_of_mem t ht]
  · rw [normalize_language, hs]
    rfl
  · rw [normalize_language, normalizeCore_fallback _ h1 h2]

/-- Witness for C1: the three cases evaluated at concrete inputs. -/
theorem normalize_language_cases_witness :
    (normalize_language "Rust").1 = "rust"
    ∧ (normalize_language "PERL6").1 = "raku"
    ∧ (normalize_language "brainfuck").1 = "plaintext" :=
  ⟨(normalize_language_cases "Rust").1 "rust" (by decide) (by decide),
   (normalize_language_cases "PERL6").2.1 (by decide),
   (normalize_language_cases "brainfuck").2.2 (by decide) (by decide)⟩

/-- C9 counterexample: the output set of `normalize_language` is the set of
the 37 accepted tags — which already contain `plaintext` — so the set
described by the claim, the accepted tags together with `plaintext`, has 37
elements, not 38. -/
theorem normalize_output_set_has_37_elements :
    (canonicalTags ++ ["plaintext"]).dedup.length = 37
    ∧ ¬ (canonicalTags ++ ["plaintext"]).dedup.length = 38 := by
  constructor <;> decide

/-- C9 (amended): every output of `normalize_language` is one of the 37
accepted lowercase tags (a set that includes `plaintext`), and the normalizer
is idempotent: normalizing an output returns it unchanged. -/
theorem normalize_language_range_idem (s : String) :
    (normalize_language s).1 ∈ canonicalTags
    ∧ (normalize_language ((normalize_language s).1)).1 = (normalize_language s).1 := by
  by_cases hmem : toAsciiLowercase s ∈ canonicalTags
  · rw [normalize_language, normalizeCore_of_mem _ hmem]
    refine ⟨hmem, ?_⟩
    rw [normalize_language, canonicalTags_lowercase _ hmem, normalizeCore_of_mem _ hmem]
  · by_cases hp : toAsciiLowercase s = "perl6"
    · rw [normalize_language, hp]
      exact ⟨show "raku" ∈ canonicalTags by decide,
        show (normalize_language "raku").1 = "raku" by decide⟩
    · rw [normalize_language, normalizeCore_fallback _ hmem hp]
      exact ⟨show "plaintext" ∈ canonicalTags by decide,
        show (normalize_language "plaintext").1 = "plaintext" by decide⟩

example : parseRfc3339 "2019-05-06T12:00:00Z" =
    some ⟨2019, 5, 6, 12, 0, 0, 0, 0⟩ := by decide

example : parseRfc3339 "2019-05-06T12:00:00.123+02:30" =
    some ⟨2019, 5, 6, 12, 0, 0, 123, 150⟩ := by decide

example : parseRfc3339 "not-a-date" = none := by decide

example : parseRfc3339 "2019-13-06T12:00:00Z" = none := by decide

example : jsonDecodeString "\"abc\"" = some "abc" := by decide

example : jsonDecodeString "\"a\\\"b\"" = some "a\"b" := by decide

example : jsonDecodeString "\"a\\u0041b\"" = some "aAb" := by decide

example : jsonDecodeString "\"a\"b\"" = none := by decide

example : jsonDecodeString "\"ab" = none := by decide

/-- The lexicographic key order is transitive. -/
theorem charListLt_trans : ∀ {a b c : List Char}, charListLt a b = true →
    charListLt b c = true → charListLt a c = true := by
  intro a
  induction a with
  | nil =>
    intro b c hab hbc
    cases b with
    | nil => simp [charListLt] at hab
    | cons y ys =>
      cases c with
      | nil => simp [charListLt] at hbc
      | cons z zs => simp [charListLt]
  | cons x xs ih =>
    intro b c hab hbc
    cases b with
    | nil => simp [charListLt] at hab
    | cons y ys =>
      cases c with
      | nil => simp [charListLt] at hbc
      | cons z zs =>
        simp only [charListLt] at hab hbc ⊢
        split_ifs at hab hbc ⊢ <;>
          first
          | rfl
          | exact ih hab hbc
          | (exfalso; omega)

/-- The lexicographic key order is total: two unrelated keys are equal. -/
theorem charListLt_false : ∀ {a b : List Char}, charListLt a b = false →
    charListLt b a = true ∨ a = b := by
  intro a
  induction a with
  | nil =>
    intro b hab
    cases b with
    | nil => right; rfl
    | cons y ys => simp [charListLt] at hab
  | cons x xs ih =>
    intro b hab
    cases b with
    | nil => left; rfl
    | cons y ys =>
      simp only [charListLt] at hab ⊢
      split_ifs at hab ⊢ <;>
        first
        | (exfalso; omega)
        | (left; rfl)
        | skip
      rcases ih hab with h | h
      · exact Or.inl h
      · refine Or.inr ?_
        have hxy : x = y := Char.ext (UInt32.ext (show x.toNat = y.toNat by omega))
        rw [hxy, h]

/-- Transitivity of the natural-key order. -/
theorem strLt_trans {a b c : String} (hab : strLt a b = true)
    (hbc : strLt b c = true) : strLt a c = true :=
  charListLt_trans hab hbc

/-- Totality of the natural-key order. -/
theorem strLt_false {a b : String} (h : strLt a b = false) :
    strLt b a = true ∨ a = b := by
  rcases charListLt_false h with hc | hc
  · exact Or.inl hc
  · refine Or.inr ?_
    cases a
    cases b
    exact congrArg String.mk (by simpa using hc)

/-- Dropping the leading entries below the cursor and one further entry from
a strictly ascending listing leaves only entries strictly above the cursor. -/
theorem dropWhile_drop_one_gt (k : String) :
    ∀ L : List (String × Option CouchDocument),
      List.Pairwise (fun a b => strLt a.1 b.1 = true) L →
      ∀ e ∈ (L.dropWhile (fun e => strLt e.1 k)).drop 1, strLt k e.1 = true := by
  intro L
  induction L with
  | nil =>
    intro _ e he
    simp at he
  | cons a L' ih =>
    intro hp e he
    rw [List.pairwise_cons] at hp
    by_cases ha : strLt a.1 k = true
    · simp only [List.dropWhile_cons, ha, if_true] at he
      exact ih hp.2 e he
    · simp only [List.dropWhile_cons, ha, if_false, Bool.false_eq_true,
        List.drop_one, List.tail_cons] at he
      have hae : strLt a.1 e.1 = true := hp.1 e he
      rcases strLt_false (Bool.not_eq_true _ ▸ ha : strLt a.1 k = false) with h | h
      · exact strLt_trans h hae
      · rw [← h]
        exact hae

/-- Every document-carrying entry of the raw listing is keyed by the
natural key of its document. -/
theorem couchEntries_key (l : Listing) :
    ∀ e ∈ couchEntries l, ∀ d, e.2 = some d → e.1 = d._id := by
  intro e he d hd
  simp only [couchEntries, List.mem_cons, List.mem_map] at he
  rcases he with he | ⟨d', _, he⟩
  · rw [he] at hd
    exact absurd hd (by simp)
  · rw [← he] at hd ⊢
    simp only at hd ⊢
    rw [Option.some_inj.mp hd]

/-- C7: over a store whose raw listing is strictly ascending in the key
order, a fetch with cursor `k` returns only documents with natural key
strictly above `k`, and a fetch without a cursor returns exactly the
documents that follow the single skipped header entry (the first `limit` of
them); both request forms carry `skip=1`. -/
theorem fetch_resume_ordering (store : Listing) (k : String) (limit : Nat)
    (hsort : List.Pairwise (fun a b => strLt a b = true)
      ((couchEntries store).map Prod.fst)) :
    (∀ row ∈ (get_documents store (some k) limit).rows,
      strLt k row.doc._id = true)
    ∧ (get_documents store none limit).rows
        = (store.docs.take limit).map CouchRow.mk
    ∧ (buildQuery (some k) limit).skip = 1
    ∧ (buildQuery none limit).skip = 1 := by
  have hpair : List.Pairwise (fun (a b : String × Option CouchDocument) =>
      strLt a.1 b.1 = true) (couchEntries store) :=
    (List.pairwise_map).mp hsort
  refine ⟨?_, ?_, rfl, rfl⟩
  · intro row hrow
    simp only [get_documents, couchRespond, buildQuery] at hrow
    rw [List.mem_filterMap] at hrow
    obtain ⟨e, he, hmap⟩ := hrow
    obtain ⟨d, hd, hmk⟩ := Option.map_eq_some'.mp hmap
    have he1 : e ∈ (((couchEntries store).dropWhile
        (fun e => strLt e.1 k)).drop 1) := List.mem_of_mem_take he
    have hgt : strLt k e.1 = true := dropWhile_drop_one_gt k _ hpair e he1
    have hent : e ∈ couchEntries store :=
      ((List.drop_sublist 1 _).trans (List.dropWhile_sublist _)).subset he1
    have hkey : e.1 = d._id := couchEntries_key store e hent d hd
    have hdoc : row.doc = d := by rw [← hmk]
    rw [hdoc, ← hkey]
    exact hgt
  · simp only [get_documents, couchRespond, buildQuery, couchEntries,
      List.drop_one, List.tail_cons]
    rw [← List.map_take, List.filterMap_map]
    have : ((fun (e : String × Option CouchDocument) => e.2.map CouchRow.mk)
        ∘ fun d => (d._id, some d)) = some ∘ CouchRow.mk := by
      funext d
      rfl
    rw [this, List.filterMap_eq_map]

/-- Witness for C7: the fetch theorem instantiated on the concrete store
with cursor `a` and page size 2. -/
theorem fetch_resume_ordering_witness :
    (∀ row ∈ (get_documents wStore (some "a") 2).rows,
      strLt "a" row.doc._id = true)
    ∧ (get_documents wStore none 2).rows
        = (wStore.docs.take 2).map CouchRow.mk
    ∧ (buildQuery (some "a") 2).skip = 1
    ∧ (buildQuery none 2).skip = 1 :=
  fetch_resume_ordering wStore "a" 2 (by decide)

/-- The file loop leaves the snippet table of the transaction untouched. -/
theorem insertFilesOps_snippets (sid : Int) :
    ∀ (files : List CouchFile) (tx : DB),
      (insertFilesOps sid files tx).2.snippets = tx.snippets := by
  intro files
  induction files with
  | nil => intro tx; rfl
  | cons f rest ih =>
    intro tx
    simp only [insertFilesOps]
    rw [ih]

/-- The file loop appends one row per attached file, named by the sanitized
file name, in original order. -/
theorem insertFilesOps_names (sid : Int) :
    ∀ (files : List CouchFile) (tx : DB),
      (insertFilesOps sid files tx).2.files.map FileRow.name
        = tx.files.map FileRow.name ++ files.map (fun f => removeNul f.name) := by
  intro files
  induction files with
  | nil => intro tx; simp [insertFilesOps]
  | cons f rest ih =>
    intro tx
    simp only [insertFilesOps]
    rw [ih]
    simp

/-- Every operation of the file loop is a file insert. -/
theorem insertFilesOps_mem (sid : Int) :
    ∀ (files : List CouchFile) (tx : DB),
      ∀ op ∈ (insertFilesOps sid files tx).1, ∃ r, op = Op.insertFile r := by
  intro files
  induction files with
  | nil =>
    intro tx op hop
    simp [insertFilesOps] at hop
  | cons f rest ih =>
    intro tx op hop
    simp only [insertFilesOps, List.mem_cons] at hop
    rcases hop with hop | hop
    · exact ⟨_, hop⟩
    · exact ih _ op hop

/-- A document is processed successfully exactly when both of its timestamps
parse. -/
theorem processRowStep_none_iff (profiles : List (String × Profile)) (tx : DB)
    (row : CouchRow) :
    (processRowStep profiles tx row).2 = none ↔
      (parseRfc3339 row.doc.created = none
        ∨ parseRfc3339 row.doc.modified = none) := by
  unfold processRowStep
  cases hc : parseRfc3339 row.doc.created <;>
    cases hm : parseRfc3339 row.doc.modified <;> simp [hc, hm]

/-- Characterization of a successful document step: exactly one snippet row
is appended, carrying the document's natural key, normalized language,
sanitized title, public flag and resolved owner identity, and the file table
grows by the document's sanitized file names in order. -/
theorem processRowStep_some (profiles : List (String × Profile)) (tx : DB)
    (row : CouchRow) (tx' : DB)
    (h : (processRowStep profiles tx row).2 = some tx') :
    ∃ snip : SnippetRow,
      tx'.snippets = tx.snippets ++ [snip]
      ∧ snip.slug = row.doc._id
      ∧ snip.language = (normalize_language row.doc.language).1
      ∧ snip.title = removeNul row.doc.title
      ∧ snip.public = row.doc.public
      ∧ snip.user_id = (List.lookup row.doc.owner profiles).map Profile.user_id
      ∧ tx'.files.map FileRow.name
          = tx.files.map FileRow.name
            ++ row.doc.files.map (fun f => removeNul f.name) := by
  simp only [processRowStep] at h
  cases hc : parseRfc3339 row.doc.created with
  | none => rw [hc] at h; exact absurd h (by simp)
  | some c =>
    cases hm : parseRfc3339 row.doc.modified with
    | none => rw [hc, hm] at h; exact absurd h (by simp)
    | some m =>
      rw [hc, hm] at h
      simp only [Option.some_inj] at h
      refine ⟨⟨tx.next_snippet_id, row.doc._id,
        (normalize_language row.doc.language).1, removeNul row.doc.title,
        row.doc.public, (List.lookup row.doc.owner profiles).map Profile.user_id,
        c, m⟩, ?_, rfl, rfl, rfl, rfl, rfl, ?_⟩
      · rw [← h, insertFilesOps_snippets]
      · rw [← h, insertFilesOps_names]

/-- The operations of a document step are row operations only. -/
theorem processRowStep_mem (profiles : List (String × Profile)) (tx : DB)
    (row : CouchRow) :
    ∀ op ∈ (processRowStep profiles tx row).1, isRowOp op = true := by
  intro op hop
  simp only [processRowStep] at hop
  cases hc : parseRfc3339 row.doc.created with
  | none =>
    rw [hc] at hop
    simp only [List.mem_map] at hop
    obtain ⟨m, _, hm⟩ := hop
    rw [← hm]
    rfl
  | some c =>
    cases hm : parseRfc3339 row.doc.modified with
    | none =>
      rw [hc, hm] at hop
      simp only [List.mem_map] at hop
      obtain ⟨m, _, hmm⟩ := hop
      rw [← hmm]
      rfl
    | some m =>
      rw [hc, hm] at hop
      simp only [List.mem_append, List.mem_map, List.mem_singleton] at hop
      rcases hop with (⟨msg, _, hmsg⟩ | hop) | hop
      · rw [← hmsg]
        rfl
      · rw [hop]
        rfl
      · obtain ⟨r, hr⟩ := insertFilesOps_mem _ _ _ op hop
        rw [hr]
        rfl

/-- Extracting the diagnostic lines of a pure diagnostic trace recovers the
lines themselves. -/
theorem logMsgs_map_log (msgs : List String) :
    logMsgs (msgs.map Op.log) = msgs := by
  induction msgs with
  | nil => rfl
  | cons m rest ih =>
    simp only [logMsgs, List.map_cons, List.filterMap_cons] at ih ⊢
    rw [ih]

/-- Extracting diagnostics distributes over trace concatenation. -/
theorem logMsgs_append (a b : List Op) :
    logMsgs (a ++ b) = logMsgs a ++ logMsgs b :=
  List.filterMap_append a b _

/-- The file loop logs no diagnostics. -/
theorem insertFilesOps_logs (sid : Int) (files : List CouchFile) (tx : DB) :
    logMsgs (insertFilesOps sid files tx).1 = [] := by
  rw [logMsgs, List.filterMap_eq_nil_iff]
  intro op hop
  obtain ⟨r, hr⟩ := insertFilesOps_mem _ _ _ op hop
  rw [hr]

/-- The diagnostic lines of a document step are exactly the normalizer
diagnostics for the document's language tag — in particular, an unresolved
owner reference logs nothing. -/
theorem processRowStep_logs (profiles : List (String × Profile)) (tx : DB)
    (row : CouchRow) :
    logMsgs (processRowStep profiles tx row).1
      = (normalize_language row.doc.language).2 := by
  simp only [processRowStep]
  cases hc : parseRfc3339 row.doc.created with
  | none =>
    exact logMsgs_map_log _
  | some c =>
    cases hm : parseRfc3339 row.doc.modified with
    | none => exact logMsgs_map_log _
    | some m =>
      rw [logMsgs_append, logMsgs_append, logMsgs_map_log, insertFilesOps_logs]
      simp [logMsgs]

/-- Every operation of the document loop is a row operation. -/
theorem processRowsAux_mem (profiles : List (String × Profile)) :
    ∀ (rows : List CouchRow) (tx : DB),
      ∀ op ∈ (processRowsAux profiles tx rows).1, isRowOp op = true := by
  intro rows
  induction rows with
  | nil =>
    intro tx op hop
    simp [processRowsAux] at hop
  | cons r rest ih =>
    intro tx op hop
    simp only [processRowsAux] at hop
    cases hstep : processRowStep profiles tx r with
    | mk ops otx =>
      rw [hstep] at hop
      have hstepmem := processRowStep_mem profiles tx r
      rw [hstep] at hstepmem
      cases otx with
      | some tx1 =>
        simp only [List.mem_append] at hop
        rcases hop with hop | hop
        · exact hstepmem op hop
        · exact ih tx1 op hop
      | none => exact hstepmem op hop

/-- If some document of the page fails timestamp parsing, the document loop
reports failure. -/
theorem processRowsAux_fails (profiles : List (String × Profile)) :
    ∀ (rows : List CouchRow) (tx : DB),
      (∃ r ∈ rows, parseRfc3339 r.doc.created = none
        ∨ parseRfc3339 r.doc.modified = none) →
      (processRowsAux profiles tx rows).2 = none := by
  intro rows
  induction rows with
  | nil =>
    intro tx h
    obtain ⟨r, hr, _⟩ := h
    simp at hr
  | cons r rest ih =>
    intro tx h
    obtain ⟨r0, hr0, hfail⟩ := h
    simp only [processRowsAux]
    cases hstep : processRowStep profiles tx r with
    | mk ops otx =>
      cases otx with
      | none => simp
      | some tx1 =>
        rcases List.mem_cons.mp hr0 with h0 | h0
        · exfalso
          have hnone := (processRowStep_none_iff profiles tx r0).mpr hfail
          rw [← h0] at hstep
          rw [hstep] at hnone
          simp at hnone
        · simpa using ih tx1 ⟨r0, h0, hfail⟩

/-- A trace of row operations contains no statement preparation. -/
theorem prepareOps_of_rowOps (ops : List Op)
    (h : ∀ op ∈ ops, isRowOp op = true) : prepareOps ops = [] := by
  rw [prepareOps, List.filter_eq_nil_iff]
  intro op hop
  have := h op hop
  cases op <;> simp_all [isRowOp]

/-- A trace of row operations contains no commit. -/
theorem commit_not_of_rowOps (ops : List Op)
    (h : ∀ op ∈ ops, isRowOp op = true) : Op.commit ∉ ops := by
  intro hop
  have := h _ hop
  simp [isRowOp] at this

/-- C4 (amended): every call of the per-page transform-and-write operation
prepares the two insert statements afresh — the trace of one page contains
exactly one preparation of the snippet insert and one of the file insert, so
a run performs two preparations per non-empty page, not two per run. -/
theorem process_rows_prepares_each_page (rows : List CouchRow)
    (profiles : List (String × Profile)) (db : DB) :
    prepareOps (process_rows rows profiles db).1
      = [Op.prepare insertSnippetSql, Op.prepare insertFileSql] := by
  unfold process_rows
  cases haux : processRowsAux profiles db rows with
  | mk ops otx =>
    have hops : ∀ op ∈ ops, isRowOp op = true := by
      have := processRowsAux_mem profiles rows db
      rw [haux] at this
      exact this
    have hnil := prepareOps_of_rowOps ops hops
    cases otx <;>
      simp_all [prepareOps, List.filter_append]

/-- C2: on a successfully committed page the returned cursor is the natural
key of the last document of the page in fetch order; on the empty page the
cursor is absent; and when a fetch returns an empty page the driver stops
immediately — its whole remaining trace is that one fetch and the progress
line, with no further fetch. -/
theorem cursor_derivation (rows : List CouchRow)
    (profiles : List (String × Profile)) (db : DB) :
    (∀ cur, (process_rows rows profiles db).2.2 = some cur →
        cur = ((rows.map (fun r => r.doc._id)).getLast?))
    ∧ (process_rows [] profiles db).2.2 = some none
    ∧ (∀ (fuel n : Nat) (store : Listing) (k : Option String),
        (couchRespond store (buildQuery k 1000)).rows = [] →
        process_loop (fuel + 1) store k n profiles db
          = ([Op.fetch (buildQuery k 1000),
              Op.printLine ("Processed " ++ toString n ++ " of "
                ++ toString (couchRespond store (buildQuery k 1000)).total_rows)],
             db, true)) := by
  refine ⟨?_, rfl, ?_⟩
  · intro cur h
    unfold process_rows at h
    cases haux : processRowsAux profiles db rows with
    | mk ops otx =>
      rw [haux] at h
      cases otx with
      | some tx =>
        simp only [Option.some_inj] at h
        rw [List.getLast?_map]
        exact h.symm
      | none => simp at h
  · intro fuel n store k h
    simp only [process_loop]
    rw [h]
    simp

/-- Witness for C2: the cursor of the committed three-document page is `c`,
and a fetch returning zero rows ends the run with no further fetch. -/
theorem cursor_derivation_witness :
    some "c" = (((get_documents wStore none 1000).rows.map
      (fun r => r.doc._id)).getLast?)
    ∧ process_loop 1 wStore (some "c") 3 [] initialDB
        = ([Op.fetch (buildQuery (some "c") 1000),
            Op.printLine "Processed 3 of 3"], initialDB, true) :=
  ⟨(cursor_derivation (get_documents wStore none 1000).rows [] initialDB).1
      (some "c") (by decide),
   (cursor_derivation [] [] initialDB).2.2 0 3 wStore (some "c") (by decide)⟩

/-- C3: if any document of the page — the `n`-th, say — fails timestamp
parsing, the page panics: the visible sink state is unchanged (no row of the
page, not even of earlier documents, is visible), no cursor is produced, the
trace holds no commit, and the transaction is rolled back. -/
theorem page_atomicity (rows : List CouchRow)
    (profiles : List (String × Profile)) (db : DB) (n : Nat)
    (hn : n < rows.length)
    (hfail : parseRfc3339 (rows.get ⟨n, hn⟩).doc.created = none
      ∨ parseRfc3339 (rows.get ⟨n, hn⟩).doc.modified = none) :
    (process_rows rows profiles db).2.1 = db
    ∧ (process_rows rows profiles db).2.2 = none
    ∧ Op.commit ∉ (process_rows rows profiles db).1
    ∧ Op.rollback ∈ (process_rows rows profiles db).1 := by
  have hex : ∃ r ∈ rows, parseRfc3339 r.doc.created = none
      ∨ parseRfc3339 r.doc.modified = none :=
    ⟨rows.get ⟨n, hn⟩, List.get_mem rows n hn, hfail⟩
  have haux2 := processRowsAux_fails profiles rows db hex
  unfold process_rows
  cases haux : processRowsAux profiles db rows with
  | mk ops otx =>
    rw [haux] at haux2
    cases otx with
    | some tx => simp at haux2
    | none =>
      have hops : ∀ op ∈ ops, isRowOp op = true := by
        have := processRowsAux_mem profiles rows db
        rw [haux] at this
        exact this
      refine ⟨rfl, rfl, ?_, by simp⟩
      intro hmem
      simp only [List.mem_append, List.mem_cons, List.not_mem_nil] at hmem
      rcases hmem with (hmem | hmem) | hmem
      · simp at hmem
      · exact commit_not_of_rowOps ops hops hmem
      · simp at hmem

/-- Witness for C3: a one-document page whose document fails parsing leaves
the sink untouched, produces no cursor, never commits and rolls back. -/
theorem page_atomicity_witness :
    (process_rows [badRow] [] initialDB).2.1 = initialDB
    ∧ (process_rows [badRow] [] initialDB).2.2 = none
    ∧ Op.commit ∉ (process_rows [badRow] [] initialDB).1
    ∧ Op.rollback ∈ (process_rows [badRow] [] initialDB).1 :=
  page_atomicity [badRow] [] initialDB 0 (by decide) (Or.inl (by decide))

/-- Null removal agrees with filtering out the NUL character. -/
theorem replaceNulList_filter (l : List Char) :
    replaceNulList l = l.filter (fun c => decide (c ≠ nul)) := by
  induction l with
  | nil => rfl
  | cons c rest ih =>
    simp only [replaceNulList, List.filter_cons]
    by_cases hc : c = nul <;> simp [hc, ih]

/-- C5: sanitization removes exactly the NUL bytes — the output contains no
NUL and equals the input filtered of NULs — and a successful document step
writes the sanitized title as the snippet title and the sanitized name of
every attached file as the file-row names, in order. -/
theorem sanitize_title_and_filenames (s : String)
    (profiles : List (String × Profile)) (tx : DB) (row : CouchRow) :
    (nul ∉ (removeNul s).data
      ∧ (removeNul s).data = s.data.filter (fun c => decide (c ≠ nul)))
    ∧ (∀ tx', (processRowStep profiles tx row).2 = some tx' →
        tx'.snippets.map SnippetRow.title
          = tx.snippets.map SnippetRow.title ++ [removeNul row.doc.title]
        ∧ tx'.files.map FileRow.name
          = tx.files.map FileRow.name
            ++ row.doc.files.map (fun f => removeNul f.name)) := by
  constructor
  · have hdata : (removeNul s).data = s.data.filter (fun c => decide (c ≠ nul)) := by
      rw [removeNul]
      exact replaceNulList_filter s.data
    refine ⟨?_, hdata⟩
    rw [hdata]
    intro hmem
    rw [List.mem_filter] at hmem
    simp at hmem
  · intro tx' h
    obtain ⟨snip, hsnips, _, _, htitle, _, _, hnames⟩ :=
      processRowStep_some profiles tx row tx' h
    refine ⟨?_, hnames⟩
    rw [hsnips]
    simp [htitle]

/-- Witness for C5: sanitizing the title `he\x00llo` yields `hello` with no
NUL, and processing document `a` writes sanitized title and file name. -/
theorem sanitize_title_and_filenames_witness :
    (nul ∉ (removeNul "he\x00llo").data
      ∧ (removeNul "he\x00llo").data
          = "he\x00llo".data.filter (fun c => decide (c ≠ nul)))
    ∧ (wTx.snippets.map SnippetRow.title
        = initialDB.snippets.map SnippetRow.title
          ++ [removeNul (wDoc "a").title]
      ∧ wTx.files.map FileRow.name
        = initialDB.files.map FileRow.name
          ++ (wDoc "a").files.map (fun f => removeNul f.name)) :=
  ⟨(sanitize_title_and_filenames "he\x00llo" wProfiles initialDB ⟨wDoc "a"⟩).1,
   (sanitize_title_and_filenames "he\x00llo" wProfiles initialDB ⟨wDoc "a"⟩).2
      wTx (by decide)⟩

/-- C6: a successful document step appends one snippet row whose owner
identity is the looked-up profile identity when the owner reference key is
in the table and null when it is absent; in both cases no error is raised
(success depends only on the timestamps) and the only diagnostics are the
normalizer ones — an unresolved owner logs nothing. -/
theorem owner_resolution (profiles : List (String × Profile)) (tx : DB)
    (row : CouchRow) :
    (∀ tx', (processRowStep profiles tx row).2 = some tx' →
      ∃ snip : SnippetRow, tx'.snippets = tx.snippets ++ [snip]
        ∧ snip.user_id = (List.lookup row.doc.owner profiles).map Profile.user_id
        ∧ (∀ p, List.lookup row.doc.owner profiles = some p →
            snip.user_id = some p.user_id)
        ∧ (List.lookup row.doc.owner profiles = none → snip.user_id = none))
    ∧ logMsgs (processRowStep profiles tx row).1
        = (normalize_language row.doc.language).2
    ∧ (processRowStep profiles tx row).2.isSome
        = ((parseRfc3339 row.doc.created).isSome
            && (parseRfc3339 row.doc.modified).isSome) := by
  refine ⟨?_, processRowStep_logs profiles tx row, ?_⟩
  · intro tx' h
    obtain ⟨snip, hsnips, _, _, _, _, huid, _⟩ :=
      processRowStep_some profiles tx row tx' h
    refine ⟨snip, hsnips, huid, ?_, ?_⟩
    · intro p hp
      rw [huid, hp]
      rfl
    · intro hp
      rw [huid, hp]
      rfl
  · simp only [processRowStep]
    cases hc : parseRfc3339 row.doc.created <;>
      cases hm : parseRfc3339 row.doc.modified <;> simp [hc, hm]

/-- Witness for C6: with the one-profile table, document `a` (owner present)
gets owner identity 42 and document `g` (owner absent) gets a null owner
identity, with no failure. -/
theorem owner_resolution_witness :
    (∃ snip : SnippetRow, wTx.snippets = initialDB.snippets ++ [snip]
      ∧ snip.user_id
          = (List.lookup (wDoc "a").owner wProfiles).map Profile.user_id
      ∧ (∀ p, List.lookup (wDoc "a").owner wProfiles = some p →
          snip.user_id = some p.user_id)
      ∧ (List.lookup (wDoc "a").owner wProfiles = none → snip.user_id = none))
    ∧ (∃ snip : SnippetRow, ghostTx.snippets = initialDB.snippets ++ [snip]
      ∧ snip.user_id
          = (List.lookup ghostRow.doc.owner wProfiles).map Profile.user_id
      ∧ (∀ p, List.lookup ghostRow.doc.owner wProfiles = some p →
          snip.user_id = some p.user_id)
      ∧ (List.lookup ghostRow.doc.owner wProfiles = none →
          snip.user_id = none)) :=
  ⟨(owner_resolution wProfiles initialDB ⟨wDoc "a"⟩).1 wTx (by decide),
   (owner_resolution wProfiles initialDB ghostRow).1 ghostTx (by decide)⟩

/-- C8: the end-to-end scenario on the store with documents `a`, `b`, `c`:
the first fetch returns the three documents in one page, the run writes
three snippet rows with three distinct surrogate identities, commits exactly
once, fetches again with cursor `c`, receives zero rows, terminates
normally, and its final progress line is `Processed 3 of 3`. -/
theorem end_to_end_scenario :
    (get_documents wStore none 1000).rows.map (fun r => r.doc._id)
      = ["a", "b", "c"]
    ∧ (get_documents wStore (some "c") 1000).rows = []
    ∧ (fetchOps (process_loop 3 wStore none 0 [] initialDB).1)
        = [Op.fetch (buildQuery none 1000),
           Op.fetch (buildQuery (some "c") 1000)]
    ∧ (process_loop 3 wStore none 0 [] initialDB).2.1.snippets.length = 3
    ∧ ((process_loop 3 wStore none 0 [] initialDB).2.1.snippets.map
        SnippetRow.id).Nodup
    ∧ (commitOps (process_loop 3 wStore none 0 [] initialDB).1).length = 1
    ∧ (process_loop 3 wStore none 0 [] initialDB).2.2 = true
    ∧ (printedLines (process_loop 3 wStore none 0 [] initialDB).1).getLast?
        = some "Processed 3 of 3" := by
  refine ⟨by decide, by decide, by decide, by decide, by decide, by decide,
    by decide, by decide⟩

set_option maxRecDepth 100000 in
/-- C4 counterexample: on the 1001-document store the run terminates
normally after two non-empty pages, and its trace contains four statement
preparations — two per page — not two for the whole run: preparation happens
again after the first page. -/
theorem run_prepares_after_first_page :
    (prepareOps (process_loop 5 bigStore none 0 [] initialDB).1).length = 4
    ∧ (process_loop 5 bigStore none 0 [] initialDB).2.2 = true := by
  constructor <;> decide

theorem jsonStrAux_length (acc l : List Char) :
    ∀ r, jsonStrAux acc l = some r → r.length + 1 ≤ acc.length + l.length := by
  induction acc, l using jsonStrAux.induct with
  | case1 x =>
    intro r h
    rw [jsonStrAux.eq_1] at h
    exact absurd h (by simp)
  | case2 acc rest hE =>
    intro r h
    rw [jsonStrAux.eq_2, if_pos hE] at h
    rw [← Option.some_inj.mp h]
    simp only [List.length_reverse, List.length_cons]
    omega
  | case3 acc rest hE =>
    intro r h
    rw [jsonStrAux.eq_2, if_neg hE] at h
    exact absurd h (by simp)
  | case4 acc a b c d rest ha hb hc hd hhd hhc hhb hha ih =>
    intro r h
    rw [jsonStrAux.eq_3, hha, hhb, hhc, hhd] at h
    have := ih r h
    simp only [List.length_cons] at this ⊢
    omega
  | case5 acc a b c d rest hfalse =>
    intro r h
    rw [jsonStrAux.eq_3] at h
    rcases hha : hexVal a with _ | va <;> rw [hha] at h
    · exact absurd h (by simp)
    · rcases hhb : hexVal b with _ | vb <;> rw [hhb] at h
      · exact absurd h (by simp)
      · rcases hhc : hexVal c with _ | vc <;> rw [hhc] at h
        · exact absurd h (by simp)
        · rcases hhd : hexVal d with _ | vd <;> rw [hhd] at h
          · exact absurd h (by simp)
          · exact (hfalse va vb vc vd hha hhb hhc hhd).elim
  | case6 acc c rest hne e hun ih =>
    intro r h
    rw [jsonStrAux.eq_4 _ _ _ hne, hun] at h
    have := ih r h
    simp only [List.length_cons] at this ⊢
    omega
  | case7 acc c rest hne hun =>
    intro r h
    rw [jsonStrAux.eq_4 _ _ _ hne, hun] at h
    exact absurd h (by simp)
  | case8 x =>
    intro r h
    rw [jsonStrAux.eq_5] at h
    exact absurd h (by simp)
  | case9 acc c rest h1 h2 h3 h4 hlt =>
    intro r h
    rw [jsonStrAux.eq_6 _ _ _ h1 h2 h3 h4, if_pos hlt] at h
    exact absurd h (by simp)
  | case10 acc c rest h1 h2 h3 h4 hlt ih =>
    intro r h
    rw [jsonStrAux.eq_6 _ _ _ h1 h2 h3 h4, if_neg hlt] at h
    have := ih r h
    simp only [List.length_cons] at this ⊢
    omega

/-- An output character beyond the starting accumulator that is a double
quote can only come from an escape sequence, and any escape strictly shrinks
the output against the input. -/
theorem jsonStrAux_quote_mem (acc l : List Char) :
    ∀ r, jsonStrAux acc l = some r → '"' ∈ r →
      '"' ∈ acc ∨ r.length + 1 < acc.length + l.length := by
  induction acc, l using jsonStrAux.induct with
  | case1 x =>
    intro r h
    rw [jsonStrAux.eq_1] at h
    exact absurd h (by simp)
  | case2 acc rest hE =>
    intro r h hq
    rw [jsonStrAux.eq_2, if_pos hE] at h
    rw [← Option.some_inj.mp h] at hq
    left
    simpa using hq
  | case3 acc rest hE =>
    intro r h
    rw [jsonStrAux.eq_2, if_neg hE] at h
    exact absurd h (by simp)
  | case4 acc a b c d rest ha hb hc hd hhd hhc hhb hha ih =>
    intro r h _
    rw [jsonStrAux.eq_3, hha, hhb, hhc, hhd] at h
    right
    have := jsonStrAux_length _ _ r h
    simp only [List.length_cons] at this ⊢
    omega
  | case5 acc a b c d rest hfalse =>
    intro r h
    rw [jsonStrAux.eq_3] at h
    rcases hha : hexVal a with _ | va <;> rw [hha] at h
    · exact absurd h (by simp)
    · rcases hhb : hexVal b with _ | vb <;> rw [hhb] at h
      · exact absurd h (by simp)
      · rcases hhc : hexVal c with _ | vc <;> rw [hhc] at h
        · exact absurd h (by simp)
        · rcases hhd : hexVal d with _ | vd <;> rw [hhd] at h
          · exact absurd h (by simp)
          · exact (hfalse va vb vc vd hha hhb hhc hhd).elim
  | case6 acc c rest hne e hun ih =>
    intro r h _
    rw [jsonStrAux.eq_4 _ _ _ hne, hun] at h
    right
    have := jsonStrAux_length _ _ r h
    simp only [List.length_cons] at this ⊢
    omega
  | case7 acc c rest hne hun =>
    intro r h
    rw [jsonStrAux.eq_4 _ _ _ hne, hun] at h
    exact absurd h (by simp)
  | case8 x =>
    intro r h
    rw [jsonStrAux.eq_5] at h
    exact absurd h (by simp)
  | case9 acc c rest h1 h2 h3 h4 hlt =>
    intro r h
    rw [jsonStrAux.eq_6 _ _ _ h1 h2 h3 h4, if_pos hlt] at h
    exact absurd h (by simp)
  | case10 acc c rest h1 h2 h3 h4 hlt ih =>
    intro r h hq
    rw [jsonStrAux.eq_6 _ _ _ h1 h2 h3 h4, if_neg hlt] at h
    rcases ih r h hq with hmem | hlen
    · rcases List.mem_cons.mp hmem with hmem | hmem
      · exact absurd hmem.symm (fun hx => h1 hx)
      · exact Or.inl hmem
    · right
      simp only [List.length_cons] at hlen ⊢
      omega

/-- C10: the `startkey` parameter built for a resume with cursor `k` is the
literal double quote, then `k` unescaped, then a double quote; whenever `k`
itself contains a double quote, that parameter fails to be a valid
JSON-string encoding of `k`. -/
theorem startkey_literal_unescaped (k : String) (limit : Nat) :
    (buildQuery (some k) limit).startkey = some ("\"" ++ k ++ "\"")
    ∧ ("\"" ++ k ++ "\"").data = '"' :: (k.data ++ ['"'])
    ∧ ('"' ∈ k.data → jsonDecodeString ("\"" ++ k ++ "\"") ≠ some k) := by
  have hdata : ("\"" ++ k ++ "\"").data = '"' :: (k.data ++ ['"']) := by
    cases k
    rfl
  refine ⟨rfl, hdata, ?_⟩
  intro hq hEq
  simp only [jsonDecodeString, hdata] at hEq
  rw [Option.map_eq_some'] at hEq
  obtain ⟨l, hl, hmk⟩ := hEq
  have hlk : l = k.data := congrArg String.data hmk
  rw [hlk] at hl
  rcases jsonStrAux_quote_mem [] (k.data ++ ['"']) k.data hl hq with hmem | hlen
  · simp at hmem
  · simp only [List.length_append, List.length_nil, List.length_cons,
      List.length_singleton] at hlen
    omega

/-- Witness for C10: for the cursor containing a double quote, the built
parameter is the unescaped quoted form and decodes to no valid JSON string
equal to the cursor. -/
theorem startkey_literal_unescaped_witness :
    (buildQuery (some "a\"b") 7).startkey = some ("\"" ++ "a\"b" ++ "\"")
    ∧ ("\"" ++ "a\"b" ++ "\"").data = '"' :: ("a\"b".data ++ ['"'])
    ∧ jsonDecodeString ("\"" ++ "a\"b" ++ "\"") ≠ some "a\"b" :=
  ⟨(startkey_literal_unescaped "a\"b" 7).1,
   (startkey_literal_unescaped "a\"b" 7).2.1,
   (startkey_literal_unescaped "a\"b" 7).2.2 (by decide)⟩

end GlotMigration
